import Mathlib

/-!
Shallow embedding of the mosaic-cataloging engine of `file_cat.py`
(class `legendrian_mosaic`, method `batch_catalog`) from the
Legendrian-Knot-Mosaics repository, together with theorems settling the
specification claims about it.

The Python code mutates a collection of per-diagram variables while walking
the tile grid; here that state is an explicit structure threaded through a
fuel-indexed loop.  Python list indexing (negative indices wrap, too-large
indices raise `IndexError`) and the two exceptions the code can raise
(`IndexError` from list indexing, `ValueError` from `int(char)`) are modelled
explicitly.  The HOMFLY-polynomial oracle (sagemath's `Link(...)`
/ `homfly_polynomial` and the `knot_list` dictionary) is external to the
engine and is modelled as a pair of parameters: a function `homfly` producing
the polynomial value and a partial lookup `table` for the name dictionary;
`knot_list.get(p, p)` is then `(table p).getD p`.
-/

namespace LegendrianMosaic

/-- The two Python exceptions the engine can raise. -/
inductive PyErr where
  | indexError : PyErr
  | valueError : PyErr
deriving DecidableEq, Repr

/-- Resolve a Python list index of length `len`: negative indices wrap
(`l[-k]` is `l[len-k]`), out-of-range indices give `none` (`IndexError`). -/
def pyIdx (len : Nat) (i : Int) : Option Nat :=
  if 0 ≤ i then
    if i.toNat < len then some i.toNat else none
  else
    if (-i).toNat ≤ len then some (len - (-i).toNat) else none

/-- Python list read `l[i]`. -/
def pyGet {α : Type} (l : List α) (i : Int) : Option α :=
  (pyIdx l.length i).bind l.get?

/-- Python list write `l[i] = v` (returns the updated list). -/
def pySet {α : Type} (l : List α) (i : Int) (v : α) : Option (List α) :=
  (pyIdx l.length i).map (fun j => l.set j v)

/-- `legendrian_mosaic.valid_connections`: for each tile type the tuple of
(incoming face, outgoing face) pairs.  Faces: 0 right, 1 top, 2 left,
3 bottom.  Entry 0 is the empty tuple (`(())` in Python is `()`). -/
def valid_connections : List (List (Nat × Nat)) :=
  [ [],
    [(2,3),(3,2)],
    [(0,3),(3,0)],
    [(0,1),(1,0)],
    [(2,1),(1,2)],
    [(2,0),(0,2)],
    [(1,3),(3,1)],
    [(2,3),(3,2),(1,0),(0,1)],
    [(0,3),(3,0),(2,1),(1,2)],
    [(0,2),(1,3),(2,0),(3,1)] ]

/-- The mutable per-diagram traversal state of `batch_catalog`'s inner loop
(the mosaic itself and the grid edge length are fixed per diagram and passed
separately). -/
structure TravState where
  currTile : Int
  face : Nat
  satisfied : List Bool
  made : List (List (Nat × Nat))
  crossingNumber : List Nat
  gauss : List Int
  signs : List Int
  crossingCount : Nat
  writhe : Int
  upCusps : Nat
  downCusps : Nat
deriving DecidableEq, Repr

/-- `face = (conn[1] + 2) % 4` and the subsequent `curr_tile` displacement. -/
def advance (size : Nat) (st : TravState) (conn : Nat × Nat) : TravState :=
  let face' := (conn.2 + 2) % 4
  { st with
    face := face'
    currTile :=
      if face' = 0 then st.currTile - 1
      else if face' = 1 then st.currTile + size
      else if face' = 2 then st.currTile + 1
      else st.currTile - size }

/-- One iteration of the body of the `while` loop of `batch_catalog`
(lines 170-211 of `file_cat.py`).  If no connection of the current tile
matches the entry face the body changes nothing (the Python `for` loop
finds no match and the `while` loop spins forever).  All per-tile lists
share the mosaic's length, so the single resolved index `j` stands for
the Python indexings `mosaic[curr_tile]`, `made_connections[curr_tile]`,
`satisfied[curr_tile]` and `crossing_number[curr_tile]`. -/
def travStep (size : Nat) (mosaic : List Nat) (st : TravState) :
    Except PyErr TravState :=
  match pyIdx mosaic.length st.currTile with
  | none => .error .indexError
  | some j =>
    let t := mosaic.getD j 0
    match (valid_connections.getD t []).find? (fun c => c.1 = st.face) with
    | none => .ok st
    | some conn =>
      let made' := st.made.set j (st.made.getD j [] ++ [conn])
      let mlen := (st.made.getD j []).length + 1
      let satisfied' :=
        if (mlen = 1 ∧ t < 7) ∨ mlen = 2 then st.satisfied.set j true
        else st.satisfied
      let down' :=
        if conn = (0,3) ∨ conn = (1,2) then st.downCusps + 1 else st.downCusps
      let up' :=
        if conn = (3,0) ∨ conn = (2,1) then st.upCusps + 1 else st.upCusps
      let base := { st with
        made := made', satisfied := satisfied',
        downCusps := down', upCusps := up' }
      if t = 9 then
        if satisfied'.getD j false then
          -- crossing already assigned: append by entry-face parity, resolve sign
          let id := st.crossingNumber.getD j 0
          let entry : Int := if st.face % 2 = 1 then (id : Int) else -(id : Int)
          let firstEntry := ((st.made.getD j []).headD conn).1
          let pos := st.face + firstEntry = 3
          match pySet st.signs ((id : Int) - 1) (if pos then 1 else -1) with
          | none => .error .indexError
          | some signs' =>
            .ok (advance size { base with
              gauss := st.gauss ++ [entry]
              signs := signs'
              writhe := if pos then st.writhe + 1 else st.writhe - 1 } conn)
        else
          -- first visit: allocate a fresh crossing identity
          let cc := st.crossingCount + 1
          let entry : Int := if st.face % 2 = 1 then (cc : Int) else -(cc : Int)
          .ok (advance size { base with
            crossingCount := cc
            signs := st.signs ++ [0]
            crossingNumber := st.crossingNumber.set j cc
            gauss := st.gauss ++ [entry] } conn)
      else
        .ok (advance size base conn)

/-- The `while curr_tile != starting_tile or not satisfied[curr_tile]` loop,
with explicit fuel.  `.ok none` means the fuel ran out before the loop
exited (the Python loop has no step bound and simply keeps running). -/
def travLoop (size : Nat) (mosaic : List Nat) (start : Nat) :
    Nat → TravState → Except PyErr (Option TravState)
  | 0, _ => .ok none
  | fuel + 1, st =>
    if st.currTile = (start : Int) then
      match pyGet st.satisfied st.currTile with
      | none => .error .indexError
      | some sat =>
        if sat then .ok (some st)
        else
          match travStep size mosaic st with
          | .error e => .error e
          | .ok st' => travLoop size mosaic start fuel st'
    else
      match travStep size mosaic st with
      | .error e => .error e
      | .ok st' => travLoop size mosaic start fuel st'

/-- The per-character parse loop (lines 157-163): `num = int(char)` raises
`ValueError` on a non-digit, then `mosaic[i] = num`, `satisfied[i] = num == 0`,
the first nonzero digit fixes `starting_tile`, and `i` advances. -/
def parseChars :
    List Nat → List Bool → Option Nat → Nat → List Char →
    Except PyErr (List Nat × List Bool × Option Nat × Nat)
  | mosaic, satisfied, start, i, [] => .ok (mosaic, satisfied, start, i)
  | mosaic, satisfied, start, i, c :: cs =>
    if c.isDigit then
      let num := c.toNat - 48
      match pySet mosaic (i : Int) num, pySet satisfied (i : Int) (num == 0) with
      | some m', some s' =>
        let start' := if start = none ∧ num ≠ 0 then some i else start
        parseChars m' s' start' (i + 1) cs
      | _, _ => .error .indexError
    else .error .valueError

/-- Run one diagram from a fresh (start-of-batch) state: parse the line into
fresh arrays and run the traversal loop.  `.ok none` covers both a diagram
with no nonzero tile (no traversal happens) and fuel exhaustion. -/
def runDiagram (size fuel : Nat) (line : String) :
    Except PyErr (Option TravState) :=
  match parseChars (List.replicate (size * size) 0)
      (List.replicate (size * size) false) none 0 line.toList with
  | .error e => .error e
  | .ok (mosaic', satisfied', startOpt, _) =>
    match startOpt with
    | none => .ok none
    | some start =>
      match (valid_connections.getD (mosaic'.getD start 0) []).head? with
      | none => .error .indexError
      | some c0 =>
        travLoop size mosaic' start fuel
          { currTile := (start : Int), face := c0.1
            satisfied := satisfied'
            made := List.replicate (size * size) []
            crossingNumber := List.replicate (size * size) 0
            gauss := [], signs := [], crossingCount := 0
            writhe := 0, upCusps := 0, downCusps := 0 }

/-- Was the diagram classified as a knot (`all(satisfied)` after the loop)? -/
def isKnotOf (r : Except PyErr (Option TravState)) : Bool :=
  match r with
  | .ok (some st) => st.satisfied.all id
  | _ => false

/-- Gauss code of a completed traversal (empty if none). -/
def gaussOf (r : Except PyErr (Option TravState)) : List Int :=
  match r with
  | .ok (some st) => st.gauss
  | _ => []

/-- Crossing-sign table of a completed traversal. -/
def signsOf (r : Except PyErr (Option TravState)) : List Int :=
  match r with
  | .ok (some st) => st.signs
  | _ => []

/-- Crossing counter of a completed traversal. -/
def countOf (r : Except PyErr (Option TravState)) : Nat :=
  match r with
  | .ok (some st) => st.crossingCount
  | _ => 0

/-- (up-cusp, down-cusp) counters of a completed traversal. -/
def cuspsOf (r : Except PyErr (Option TravState)) : Nat × Nat :=
  match r with
  | .ok (some st) => (st.upCusps, st.downCusps)
  | _ => (0, 0)

/-- Writhe accumulator of a completed traversal. -/
def writheOf (r : Except PyErr (Option TravState)) : Int :=
  match r with
  | .ok (some st) => st.writhe
  | _ => 0

/-- Number of times identity `id` occurs (with either sign) in a Gauss code. -/
def appearCount (g : List Int) (id : Nat) : Nat :=
  (g.filter (fun x => x.natAbs = id)).length

/-- Python `str` of an int right-justified to width 3 (`f"{n:>3}"`). -/
def rjust3 (n : Int) : String :=
  let s := toString n
  if s.length < 3 then String.mk (List.replicate (3 - s.length) ' ') ++ s else s

/-- The knot identity of line 215: `'0_1'` when the Gauss code has fewer than
3 entries, otherwise `knot_list.get(p, p)` where `p` is the HOMFLY value the
external oracle computes from the Gauss code and crossing signs. -/
def identityOf (homfly : List Int → List Int → String)
    (table : String → Option String) (gauss signs : List Int) : String :=
  if gauss.length < 3 then "0_1"
  else (table (homfly gauss signs)).getD (homfly gauss signs)

/-- The invariant tuple of line 215: (knot identity,
`writhe - (up_cusps + down_cusps) // 2`, `abs(up_cusps - down_cusps) // 2`). -/
def invariantTuple (homfly : List Int → List Int → String)
    (table : String → Option String) (st : TravState) : String × Int × Int :=
  (identityOf homfly table st.gauss st.signs,
   st.writhe - ((st.upCusps + st.downCusps) / 2 : Nat),
   ((Int.natAbs ((st.upCusps : Int) - (st.downCusps : Int))) / 2 : Nat))

/-- The output line of line 217:
`f"{tup[0]} | {tup[1]:>3} | {tup[2]:>3} | {mosaic_string}\n"`. -/
def fmtLine (tup : String × Int × Int) (line : String) : String :=
  tup.1 ++ " | " ++ rjust3 tup.2.1 ++ " | " ++ rjust3 tup.2.2 ++ " | " ++ line ++ "\n"

/-- Lines 212-219: after the loop, if every tile is satisfied the knot
counter is incremented, the invariant tuple is computed, and on a fresh
catalog key the output line is written (and flushed) and the key inserted;
otherwise everything is left unchanged.  The catalog is the Python dict
`knot_catalog` as an insertion-ordered association list, the output stream
is the list of strings written so far. -/
def postProcess (homfly : List Int → List Int → String)
    (table : String → Option String) (line : String) (st : TravState)
    (knotCount : Nat) (catalog : List ((String × Int × Int) × String))
    (output : List String) :
    Nat × List ((String × Int × Int) × String) × List String :=
  if st.satisfied.all id then
    let tup := invariantTuple homfly table st
    if (catalog.lookup tup).isSome then (knotCount + 1, catalog, output)
    else (knotCount + 1, catalog ++ [(tup, line)], output ++ [fmtLine tup line])
  else (knotCount, catalog, output)

/-- The full mutable state of `batch_catalog` as it is carried from one
input line to the next (lines 131-151).  Note which parts the reset block
of lines 221-232 touches: `mosaic`, `satisfied` and `crossingNumber` are
NOT reset between diagrams, and nothing at all is reset when a diagram with
no nonzero tile is skipped by the `continue` of line 165. -/
structure BatchState where
  mosaic : List Nat
  satisfied : List Bool
  crossingNumber : List Nat
  gauss : List Int
  signs : List Int
  made : List (List (Nat × Nat))
  crossingCount : Nat
  i : Nat
  writhe : Int
  upCusps : Nat
  downCusps : Nat
  startingTile : Option Nat
  knotCount : Nat
  catalog : List ((String × Int × Int) × String)
  output : List String
deriving Repr

/-- The state `batch_catalog` builds before its `while True` loop. -/
def initBatch (size : Nat) : BatchState :=
  { mosaic := List.replicate (size * size) 0
    satisfied := List.replicate (size * size) false
    crossingNumber := List.replicate (size * size) 0
    gauss := [], signs := []
    made := List.replicate (size * size) []
    crossingCount := 0, i := 0, writhe := 0, upCusps := 0, downCusps := 0
    startingTile := none, knotCount := 0, catalog := [], output := [] }

/-- One iteration of the `while True` loop of `batch_catalog` on a nonempty
line (lines 157-232): parse the characters, skip (without any reset) when no
nonzero tile was seen, otherwise traverse, post-process, and run the reset
block (which clears the per-diagram bookkeeping but not `mosaic`,
`satisfied` or `crossing_number`).  `.ok none` means the traversal ran out
of fuel. -/
def runLine (homfly : List Int → List Int → String)
    (table : String → Option String) (size fuel : Nat)
    (bst : BatchState) (line : String) : Except PyErr (Option BatchState) :=
  match parseChars bst.mosaic bst.satisfied bst.startingTile bst.i line.toList with
  | .error e => .error e
  | .ok (mosaic', satisfied', startOpt, i') =>
    match startOpt with
    | none =>
      .ok (some { bst with mosaic := mosaic', satisfied := satisfied', i := i' })
    | some start =>
      match (valid_connections.getD (mosaic'.getD start 0) []).head? with
      | none => .error .indexError
      | some c0 =>
        match travLoop size mosaic' start fuel
            { currTile := (start : Int), face := c0.1
              satisfied := satisfied'
              made := bst.made
              crossingNumber := bst.crossingNumber
              gauss := bst.gauss, signs := bst.signs
              crossingCount := bst.crossingCount
              writhe := bst.writhe
              upCusps := bst.upCusps, downCusps := bst.downCusps } with
        | .error e => .error e
        | .ok none => .ok none
        | .ok (some stF) =>
          let res := postProcess homfly table line stF
            bst.knotCount bst.catalog bst.output
          .ok (some
            { mosaic := mosaic'
              satisfied := stF.satisfied
              crossingNumber := stF.crossingNumber
              made := List.replicate stF.made.length []
              gauss := [], signs := [], crossingCount := 0, i := 0
              writhe := 0, upCusps := 0, downCusps := 0
              startingTile := none
              knotCount := res.1
              catalog := res.2.1
              output := res.2.2 })

/-- The `while True: mosaic_string = in_file.readline().strip(); if len == 0:
break; ...` loop over the remaining input lines. -/
def batchLines (homfly : List Int → List Int → String)
    (table : String → Option String) (size fuel : Nat) :
    List String → BatchState → Except PyErr (Option BatchState)
  | [], bst => .ok (some bst)
  | l :: rest, bst =>
    if l.length = 0 then .ok (some bst)
    else
      match runLine homfly table size fuel bst l with
      | .error e => .error e
      | .ok none => .ok none
      | .ok (some bst') => batchLines homfly table size fuel rest bst'

/-- Floor integer square root (computable by plain recursion over a range,
so that it evaluates inside the kernel): the largest `k` with `k * k ≤ n`.
Models Python's `int(n ** 0.5)` for the line lengths that occur. -/
def int_sqrt (n : Nat) : Nat :=
  ((List.range (n + 1)).filter (fun k => k * k ≤ n)).length - 1

/-- `legendrian_mosaic.batch_catalog`: the first line only fixes the mosaic
edge length `size = int(len(line) ** 0.5)`; the remaining lines are
processed in order. -/
def batch_catalog (homfly : List Int → List Int → String)
    (table : String → Option String) (fuel : Nat) (lines : List String) :
    Except PyErr (Option BatchState) :=
  match lines with
  | [] => .ok (some (initBatch 0))
  | first :: rest =>
    batchLines homfly table (int_sqrt first.length) fuel rest
      (initBatch (int_sqrt first.length))

/-- The invariant tuple of a completed traversal (junk if there is none). -/
def tupleOf (homfly : List Int → List Int → String)
    (table : String → Option String) (r : Except PyErr (Option TravState)) :
    String × Int × Int :=
  match r with
  | .ok (some st) => invariantTuple homfly table st
  | _ => ("", 0, 0)

/-- The mosaic of the diagram line `100000000`: a single type-1 tile. -/
def mosaicHang : List Nat := [1, 0, 0, 0, 0, 0, 0, 0, 0]

/-- The traversal state reached on the diagram `100000000` after one loop
iteration: the walk has left the type-1 tile downward into the empty tile 3,
where no connection matches entry face 1, so the loop body makes no further
progress. -/
def hangStuck : TravState :=
  { currTile := 3, face := 1
    satisfied := [true, true, true, true, true, true, true, true, true]
    made := [[(2, 3)], [], [], [], [], [], [], [], []]
    crossingNumber := List.replicate 9 0
    gauss := [], signs := [], crossingCount := 0
    writhe := 0, upCusps := 0, downCusps := 0 }

/-- The invariant of the traversal loop that underpins the crossing / Gauss
code bookkeeping: the per-tile lists share the mosaic's length; the sign
table has exactly one slot per allocated crossing; sign values stay in
{-1,0,1}; a type-9 tile with at least one used connection carries an
allocated identity in 1..crossing_count, identities of distinct visited
crossings are distinct and every allocated identity belongs to some visited
crossing tile; an identity occurs in the Gauss code once per visit of its
tile; its sign slot is 0 exactly while the tile has seen only one visit;
a type-9 tile is flagged satisfied exactly once it has seen two visits; and
every Gauss entry names an allocated identity. -/
structure Inv (mosaic : List Nat) (st : TravState) : Prop where
  satLen : st.satisfied.length = mosaic.length
  madeLen : st.made.length = mosaic.length
  numLen : st.crossingNumber.length = mosaic.length
  signsLen : st.signs.length = st.crossingCount
  signsRange : ∀ k, st.signs.getD k 0 = -1 ∨ st.signs.getD k 0 = 0 ∨
      st.signs.getD k 0 = 1
  numRange : ∀ t, mosaic.getD t 0 = 9 → st.made.getD t [] ≠ [] →
      1 ≤ st.crossingNumber.getD t 0 ∧
      st.crossingNumber.getD t 0 ≤ st.crossingCount
  numInj : ∀ t t', mosaic.getD t 0 = 9 → mosaic.getD t' 0 = 9 →
      st.made.getD t [] ≠ [] → st.made.getD t' [] ≠ [] →
      st.crossingNumber.getD t 0 = st.crossingNumber.getD t' 0 → t = t'
  surj : ∀ k, k < st.crossingCount → ∃ t, mosaic.getD t 0 = 9 ∧
      st.made.getD t [] ≠ [] ∧ st.crossingNumber.getD t 0 = k + 1
  appear : ∀ t, mosaic.getD t 0 = 9 → st.made.getD t [] ≠ [] →
      appearCount st.gauss (st.crossingNumber.getD t 0) =
        (st.made.getD t []).length
  signZero : ∀ t, mosaic.getD t 0 = 9 → st.made.getD t [] ≠ [] →
      (st.signs.getD (st.crossingNumber.getD t 0 - 1) 0 = 0 ↔
        (st.made.getD t []).length = 1)
  satIff : ∀ t, mosaic.getD t 0 = 9 →
      (st.satisfied.getD t false = true ↔ 2 ≤ (st.made.getD t []).length)
  gaussRange : ∀ x, x ∈ st.gauss → 1 ≤ x.natAbs ∧ x.natAbs ≤ st.crossingCount

/-! ### List and Python-indexing helper lemmas -/

theorem getD_set_self {α : Type} (l : List α) (j : Nat) (v d : α)
    (h : j < l.length) : (l.set j v).getD j d = v := by
  simp [List.getD_eq_getElem, List.length_set, h, List.getElem_set_self]

theorem getD_set_ne {α : Type} (l : List α) {j t : Nat} (v d : α)
    (h : t ≠ j) : (l.set j v).getD t d = l.getD t d := by
  simp [List.getD_eq_getD_get?, List.getElem?_set_ne (Ne.symm h)]

theorem getD_append_last {α : Type} (l : List α) (v d : α) :
    (l ++ [v]).getD l.length d = v := by
  rw [List.getD_append_right _ _ _ _ (Nat.le_refl _)]; simp

theorem getD_append_lt {α : Type} (l l' : List α) (k : Nat) (d : α)
    (h : k < l.length) : (l ++ l').getD k d = l.getD k d :=
  List.getD_append _ _ _ _ h

theorem getD_replicate {α : Type} (n t : Nat) (d : α) :
    (List.replicate n d).getD t d = d := by
  rcases Nat.lt_or_ge t n with h | h
  · rw [List.getD_eq_getElem _ _ (by simpa using h)]; simp
  · exact List.getD_eq_default _ _ (by simpa using h)

theorem all_getD_of_all (l : List Bool) (h : l.all id = true) (t : Nat)
    (ht : t < l.length) : l.getD t false = true := by
  rw [List.getD_eq_getElem _ _ ht]
  exact (List.all_eq_true.mp h) _ (List.getElem_mem ht)

theorem lt_length_of_getD_ne {α : Type} [DecidableEq α] (l : List α) (t : Nat)
    (d : α) (h : l.getD t d ≠ d) : t < l.length := by
  by_contra hc
  exact h (List.getD_eq_default _ _ (Nat.le_of_not_lt hc))

theorem pyIdx_natCast (len n : Nat) (h : n < len) :
    pyIdx len (n : Int) = some n := by
  simp [pyIdx, h]

theorem pyGet_natCast {α : Type} (l : List α) (n : Nat) (h : n < l.length) :
    pyGet l (n : Int) = l.get? n := by
  simp [pyGet, pyIdx_natCast _ _ h]

theorem pySet_natCast {α : Type} (l : List α) (n : Nat) (v : α)
    (h : n < l.length) : pySet l (n : Int) v = some (l.set n v) := by
  simp [pySet, pyIdx_natCast _ _ h]

theorem pySet_sub_one {α : Type} (l : List α) (id : Nat) (v : α)
    (h1 : 1 ≤ id) (h2 : id ≤ l.length) :
    pySet l ((id : Int) - 1) v = some (l.set (id - 1) v) := by
  have hcast : ((id : Int) - 1) = ((id - 1 : Nat) : Int) := by omega
  rw [hcast]
  exact pySet_natCast _ _ _ (by omega)

/-! ### C6: unresolvable traversals hang the engine (code bug) -/

theorem hangStuck_step : travStep 3 mosaicHang hangStuck = .ok hangStuck := rfl

theorem hangStuck_loop :
    ∀ fuel, travLoop 3 mosaicHang 0 fuel hangStuck = .ok none := by
  intro fuel
  induction fuel with
  | zero => rfl
  | succ n ih =>
    rw [travLoop]
    rw [if_neg (by decide)]
    rw [hangStuck_step]
    exact ih

/-- C6: the spec requires an unresolvable traversal (no matching connection,
e.g. the walk entering an empty tile) to be treated as a non-knot and the
batch to continue; the code's `while` loop has no step bound and the `for`
loop simply finds no connection, so on the diagram `100000000` the loop body
makes no progress and the engine runs forever — for every fuel bound the
loop is still running. -/
theorem unresolvable_traversal_never_terminates :
    ∀ fuel, runDiagram 3 fuel "100000000" = .ok none := by
  intro fuel
  cases fuel with
  | zero => rfl
  | succ n =>
    have h : runDiagram 3 (n + 1) "100000000" =
        travLoop 3 mosaicHang 0 n hangStuck := rfl
    rw [h]
    exact hangStuck_loop n

/-! ### C7: a malformed line aborts the whole batch (code bug) -/

/-- C7: the spec requires a malformed line (non-digit character) to be
skipped as a per-diagram parse error with the batch continuing; in the code
`int(char)` raises an uncaught `ValueError`, so the whole run aborts and the
well-formed diagram after the bad line is never processed. -/
theorem malformed_line_is_fatal :
    ∀ (homfly : List Int → List Int → String)
      (table : String → Option String) (fuel : Nat),
      batch_catalog homfly table fuel
        ["000000000", "00a000000", "110340000"] = .error .valueError := by
  intro homfly table fuel
  rfl

/-! ### C8: state leaks across a skipped diagram (code bug) -/

/-- C8: the spec requires all per-diagram state (including the tile-array
write index) to be reset between diagrams, also after a skipped all-zero
diagram; the code's `continue` for a diagram with no nonzero tile bypasses
the reset block, so the write index `i` stays at `size²` and parsing the
next diagram indexes `mosaic[size²]`, raising `IndexError` and aborting the
run instead of processing the later diagram independently. -/
theorem skipped_diagram_leaks_write_index :
    ∀ (homfly : List Int → List Int → String)
      (table : String → Option String) (fuel : Nat),
      batch_catalog homfly table fuel
        ["000000000", "000000000", "110340000"] = .error .indexError := by
  intro homfly table fuel
  rfl

/-! ### C4 and C5 counterexamples -/

/-- C4 counterexample: the diagram `081294340` completes its traversal with
every tile satisfied (it is counted and cataloged as a knot), allocates
exactly one crossing identity, yet that identity appears four times in the
Gauss code — the loop passes the crossing twice per circuit because the
type-8 start tile needs two visits before the termination test succeeds. -/
theorem crossing_appears_four_times :
    isKnotOf (runDiagram 3 60 "081294340") = true ∧
    countOf (runDiagram 3 60 "081294340") = 1 ∧
    appearCount (gaussOf (runDiagram 3 60 "081294340")) 1 = 4 := by
  decide

/-- C5 counterexample: the diagram `110340000` completes its traversal with
every tile satisfied (it is counted and cataloged as a knot), yet its final
cusp counters are U = 1, D = 0, so U + D and |U - D| are odd and the two
integer divisions of line 215 round. -/
theorem odd_cusp_total_on_successful_traversal :
    isKnotOf (runDiagram 3 40 "110340000") = true ∧
    (cuspsOf (runDiagram 3 40 "110340000")).1 = 1 ∧
    (cuspsOf (runDiagram 3 40 "110340000")).2 = 0 := by
  decide

/-- C5 (amended): for every successful traversal the cusp totals U + D and
|U - D| have the same parity, so the TB-like and rotation divisions of line
215 discard the same remainder — but they need not be even. -/
theorem cusp_sum_diff_same_parity :
    ∀ (size fuel : Nat) (line : String),
      isKnotOf (runDiagram size fuel line) = true →
      ((cuspsOf (runDiagram size fuel line)).1 +
        (cuspsOf (runDiagram size fuel line)).2) % 2 =
      (Int.natAbs (((cuspsOf (runDiagram size fuel line)).1 : Int) -
        ((cuspsOf (runDiagram size fuel line)).2 : Int))) % 2 := by
  intro size fuel line _
  omega

/-- Witness for `cusp_sum_diff_same_parity` at the diagram `110340000`. -/
theorem cusp_sum_diff_same_parity_witness :
    isKnotOf (runDiagram 3 40 "110340000") = true ∧
    ((cuspsOf (runDiagram 3 40 "110340000")).1 +
      (cuspsOf (runDiagram 3 40 "110340000")).2) % 2 =
    (Int.natAbs (((cuspsOf (runDiagram 3 40 "110340000")).1 : Int) -
      ((cuspsOf (runDiagram 3 40 "110340000")).2 : Int))) % 2 :=
  ⟨by decide, cusp_sum_diff_same_parity 3 40 "110340000" (by decide)⟩

/-! ### C1: is-a-knot classification gates counting, invariants, cataloging -/

/-- C1: after the traversal loop, the diagram is classified a knot exactly
when every tile is flagged satisfied; only then is the knot counter
incremented (and the invariant tuple computed and possibly cataloged);
otherwise the diagram is discarded — counter, catalog and output are
unchanged and the result does not depend on the invariant/oracle
components at all (they are never invoked). -/
theorem knot_iff_all_saturated :
    ∀ (homfly homfly' : List Int → List Int → String)
      (table table' : String → Option String) (line : String) (st : TravState)
      (k : Nat) (cat : List ((String × Int × Int) × String))
      (out : List String),
      (st.satisfied.all id = true →
        (postProcess homfly table line st k cat out).1 = k + 1) ∧
      (st.satisfied.all id = false →
        postProcess homfly table line st k cat out = (k, cat, out) ∧
        postProcess homfly table line st k cat out =
          postProcess homfly' table' line st k cat out) := by
  intro homfly homfly' table table' line st k cat out
  constructor
  · intro hall
    simp only [postProcess, hall, if_true]
    split <;> rfl
  · intro hall
    simp [postProcess, hall]

/-- Witness for `knot_iff_all_saturated`: a fully satisfied one-tile state
is counted, an unsatisfied one is discarded unchanged. -/
theorem knot_iff_all_saturated_witness :
    (postProcess (fun _ _ => "A") (fun _ => none) "x"
      { currTile := 0, face := 0, satisfied := [true], made := [],
        crossingNumber := [], gauss := [], signs := [], crossingCount := 0,
        writhe := 0, upCusps := 0, downCusps := 0 } 0 [] []).1 = 1 ∧
    postProcess (fun _ _ => "A") (fun _ => none) "x"
      { currTile := 0, face := 0, satisfied := [false], made := [],
        crossingNumber := [], gauss := [], signs := [], crossingCount := 0,
        writhe := 0, upCusps := 0, downCusps := 0 } 0 [] [] = (0, [], []) :=
  ⟨(knot_iff_all_saturated (fun _ _ => "A") (fun _ _ => "B") (fun _ => none)
      (fun _ => none) "x" _ 0 [] []).1 (by decide),
   ((knot_iff_all_saturated (fun _ _ => "A") (fun _ _ => "B") (fun _ => none)
      (fun _ => none) "x" _ 0 [] []).2 (by decide)).1⟩

/-! ### C9: catalog key, first-occurrence output line, silent dedup -/

/-- C9: a resolved diagram is keyed by the triple (identity, TB-like,
rotation); on the first occurrence of the key exactly one line
`identity | TB right-justified to 3 | rotation right-justified to 3 | line`
is written, and on a repeat occurrence nothing is written and no error is
raised (the result is returned normally with only the counter bumped). -/
theorem catalog_dedup_and_format :
    ∀ (homfly : List Int → List Int → String)
      (table : String → Option String) (line : String) (st : TravState)
      (k : Nat) (cat : List ((String × Int × Int) × String))
      (out : List String),
      st.satisfied.all id = true →
      (cat.lookup (invariantTuple homfly table st) = none →
        postProcess homfly table line st k cat out =
          (k + 1, cat ++ [(invariantTuple homfly table st, line)],
           out ++ [(invariantTuple homfly table st).1 ++ " | " ++
             rjust3 (invariantTuple homfly table st).2.1 ++ " | " ++
             rjust3 (invariantTuple homfly table st).2.2 ++ " | " ++
             line ++ "\n"])) ∧
      ((cat.lookup (invariantTuple homfly table st)).isSome = true →
        postProcess homfly table line st k cat out = (k + 1, cat, out)) := by
  intro homfly table line st k cat out hall
  constructor
  · intro hnone
    simp [postProcess, hall, hnone, fmtLine]
  · intro hsome
    simp [postProcess, hall, hsome]

/-- Witness for `catalog_dedup_and_format`: a trivial satisfied state writes
one formatted line against an empty catalog and writes nothing against a
catalog already holding its key. -/
theorem catalog_dedup_and_format_witness :
    postProcess (fun _ _ => "A") (fun _ => none) "x"
      { currTile := 0, face := 0, satisfied := [true], made := [],
        crossingNumber := [], gauss := [], signs := [], crossingCount := 0,
        writhe := 0, upCusps := 0, downCusps := 0 } 0 [] [] =
      (1, [(("0_1", 0, 0), "x")], ["0_1 |   0 |   0 | x\n"]) ∧
    postProcess (fun _ _ => "A") (fun _ => none) "x"
      { currTile := 0, face := 0, satisfied := [true], made := [],
        crossingNumber := [], gauss := [], signs := [], crossingCount := 0,
        writhe := 0, upCusps := 0, downCusps := 0 } 0
      [(("0_1", 0, 0), "y")] ["0_1 |   0 |   0 | y\n"] =
      (1, [(("0_1", 0, 0), "y")], ["0_1 |   0 |   0 | y\n"]) :=
  ⟨by
    have h := (catalog_dedup_and_format (fun _ _ => "A") (fun _ => none) "x"
      { currTile := 0, face := 0, satisfied := [true], made := [],
        crossingNumber := [], gauss := [], signs := [], crossingCount := 0,
        writhe := 0, upCusps := 0, downCusps := 0 } 0 [] [] (by decide)).1
      (by decide)
    simpa using h,
   by
    have h := (catalog_dedup_and_format (fun _ _ => "A") (fun _ => none) "x"
      { currTile := 0, face := 0, satisfied := [true], made := [],
        crossingNumber := [], gauss := [], signs := [], crossingCount := 0,
        writhe := 0, upCusps := 0, downCusps := 0 } 0
      [(("0_1", 0, 0), "y")] ["0_1 |   0 |   0 | y\n"] (by decide)).2
      (by decide)
    simpa using h⟩

/-! ### C3: invariant record formulas and trivial-knot short-circuit -/

/-- C3: for a successful traversal the invariant record is
(identity, writhe - (U + D) / 2, |U - D| / 2) with integer division; when
the Gauss code has fewer than 3 entries the identity is the trivial knot
name `0_1` with no oracle dependence at all, otherwise it is the oracle
table's canonical name when the polynomial is found and the raw polynomial
value itself when it is not. -/
theorem invariant_record_formulas :
    ∀ (h₁ h₂ : List Int → List Int → String)
      (t₁ t₂ : String → Option String) (size fuel : Nat) (line : String)
      (r : Except PyErr (Option TravState)),
      r = runDiagram size fuel line →
      isKnotOf r = true →
      (tupleOf h₁ t₁ r =
        (identityOf h₁ t₁ (gaussOf r) (signsOf r),
         writheOf r - ((((cuspsOf r).1 + (cuspsOf r).2) / 2 : Nat) : Int),
         (((((cuspsOf r).1 : Int) - ((cuspsOf r).2 : Int)).natAbs / 2 : Nat) :
           Int))) ∧
      ((gaussOf r).length < 3 →
        identityOf h₁ t₁ (gaussOf r) (signsOf r) = "0_1" ∧
        identityOf h₁ t₁ (gaussOf r) (signsOf r) =
          identityOf h₂ t₂ (gaussOf r) (signsOf r)) ∧
      (¬ (gaussOf r).length < 3 →
        (∀ nm, t₁ (h₁ (gaussOf r) (signsOf r)) = some nm →
          identityOf h₁ t₁ (gaussOf r) (signsOf r) = nm) ∧
        (t₁ (h₁ (gaussOf r) (signsOf r)) = none →
          identityOf h₁ t₁ (gaussOf r) (signsOf r) =
            h₁ (gaussOf r) (signsOf r))) := by
  intro h₁ h₂ t₁ t₂ size fuel line r hr hknot
  cases r with
  | error e => simp [isKnotOf] at hknot
  | ok v =>
    cases v with
    | none => simp [isKnotOf] at hknot
    | some st =>
      refine ⟨rfl, ?_, ?_⟩
      · intro hlt
        simp only [gaussOf, signsOf] at hlt ⊢
        simp [identityOf, hlt]
      · intro hge
        simp only [gaussOf, signsOf] at hge ⊢
        constructor
        · intro nm hnm
          simp [identityOf, hge, hnm]
        · intro hnone
          simp [identityOf, hge, hnone]

/-- Witness for `invariant_record_formulas`, at the cusp-only diagram
`110340000` (Gauss code shorter than 3, identity `0_1` with no oracle
dependence) and at the one-crossing diagram `081294340` (Gauss code of
length 4: identity is the table name when the polynomial is found and the
raw polynomial when it is not). -/
theorem invariant_record_formulas_witness :
    identityOf (fun _ _ => "P") (fun _ => none)
      (gaussOf (runDiagram 3 40 "110340000"))
      (signsOf (runDiagram 3 40 "110340000")) = "0_1" ∧
    identityOf (fun _ _ => "P") (fun _ => some "K")
      (gaussOf (runDiagram 3 60 "081294340"))
      (signsOf (runDiagram 3 60 "081294340")) = "K" ∧
    identityOf (fun _ _ => "P") (fun _ => none)
      (gaussOf (runDiagram 3 60 "081294340"))
      (signsOf (runDiagram 3 60 "081294340")) = "P" :=
  ⟨((invariant_record_formulas (fun _ _ => "P") (fun _ _ => "Q")
      (fun _ => none) (fun _ => none) 3 40 "110340000" _ rfl
      (by decide)).2.1 (by decide)).1,
   ((invariant_record_formulas (fun _ _ => "P") (fun _ _ => "Q")
      (fun _ => some "K") (fun _ => none) 3 60 "081294340" _ rfl
      (by decide)).2.2 (by decide)).1 "K" rfl,
   ((invariant_record_formulas (fun _ _ => "P") (fun _ _ => "Q")
      (fun _ => none) (fun _ => none) 3 60 "081294340" _ rfl
      (by decide)).2.2 (by decide)).2 rfl⟩

/-! ### More indexing helpers -/

theorem pyIdx_lt {len : Nat} {i : Int} {j : Nat} (h : pyIdx len i = some j) :
    j < len := by
  unfold pyIdx at h
  split_ifs at h with h0 h1 h2 <;> injection h with h' <;> omega

theorem pySet_natCast_some {α : Type} (l : List α) (n : Nat) (v : α)
    (l' : List α) (h : pySet l (n : Int) v = some l') :
    n < l.length ∧ l' = l.set n v := by
  unfold pySet pyIdx at h
  simp only [Int.natCast_nonneg, if_true, Int.toNat_natCast] at h
  split_ifs at h with hlt
  · exact ⟨hlt, by injection h with h'; exact h'.symm⟩
  · exact absurd h (by simp)

/-! ### C2: two-phase crossing protocol of type-9 tiles -/

/-- C2: at a type-9 tile, on the first visit (no recorded connection, tile
unsatisfied) a fresh identity is drawn from the 1-based monotonic counter, a
placeholder sign 0 is appended, and `+identity` is appended to the Gauss
code when the entry port is odd, `-identity` when it is even; on the second
visit the same parity rule appends the signed identity and the sign is
resolved from the sum of the two recorded entry ports: sum 3 increments the
writhe and sets the sign slot to +1, any other sum decrements the writhe
and sets it to -1. -/
theorem crossing_tile_bookkeeping :
    ∀ (size : Nat) (mosaic : List Nat) (st : TravState) (j : Nat)
      (conn : Nat × Nat),
      pyIdx mosaic.length st.currTile = some j →
      mosaic.getD j 0 = 9 →
      (valid_connections.getD 9 []).find? (fun c => c.1 = st.face) =
        some conn →
      st.satisfied.length = mosaic.length →
      ((st.made.getD j [] = [] → st.satisfied.getD j false = false →
        ∃ st', travStep size mosaic st = .ok st' ∧
          st'.crossingCount = st.crossingCount + 1 ∧
          st'.signs = st.signs ++ [0] ∧
          st'.crossingNumber =
            st.crossingNumber.set j (st.crossingCount + 1) ∧
          st'.gauss = st.gauss ++
            [if st.face % 2 = 1 then ((st.crossingCount + 1 : Nat) : Int)
             else -((st.crossingCount + 1 : Nat) : Int)]) ∧
      (∀ c₀, st.made.getD j [] = [c₀] →
        1 ≤ st.crossingNumber.getD j 0 →
        st.crossingNumber.getD j 0 ≤ st.signs.length →
        ∃ st', travStep size mosaic st = .ok st' ∧
          st'.gauss = st.gauss ++
            [if st.face % 2 = 1 then ((st.crossingNumber.getD j 0 : Nat) : Int)
             else -((st.crossingNumber.getD j 0 : Nat) : Int)] ∧
          (st.face + c₀.1 = 3 →
            st'.writhe = st.writhe + 1 ∧
            st'.signs = st.signs.set (st.crossingNumber.getD j 0 - 1) 1) ∧
          (st.face + c₀.1 ≠ 3 →
            st'.writhe = st.writhe - 1 ∧
            st'.signs = st.signs.set (st.crossingNumber.getD j 0 - 1) (-1)))) := by
  intro size mosaic st j conn hidx ht9 hfind hsatlen
  have hjlt : j < mosaic.length := pyIdx_lt hidx
  constructor
  · intro hmade hsat
    have hstep : travStep size mosaic st = .ok (advance size
        { st with
          made := st.made.set j (st.made.getD j [] ++ [conn])
          downCusps := if conn = (0,3) ∨ conn = (1,2) then st.downCusps + 1
            else st.downCusps
          upCusps := if conn = (3,0) ∨ conn = (2,1) then st.upCusps + 1
            else st.upCusps
          crossingCount := st.crossingCount + 1
          signs := st.signs ++ [0]
          crossingNumber := st.crossingNumber.set j (st.crossingCount + 1)
          gauss := st.gauss ++
            [if st.face % 2 = 1 then ((st.crossingCount + 1 : Nat) : Int)
             else -((st.crossingCount + 1 : Nat) : Int)] } conn) := by
      unfold travStep
      rw [hidx]
      dsimp only
      rw [ht9, hfind]
      dsimp only
      rw [hmade]
      rw [if_pos (show (9 : Nat) = 9 from rfl)]
      rw [if_neg (show ¬((List.length ([] : List (Nat × Nat)) + 1 = 1 ∧
        (9 : Nat) < 7) ∨ List.length ([] : List (Nat × Nat)) + 1 = 2)
        from by norm_num)]
      rw [hsat]
      rw [if_neg (show ¬(false = true) from by simp)]
    exact ⟨_, hstep, by simp [advance], by simp [advance],
      by simp [advance], by simp [advance]⟩
  · intro c₀ hmade h1 h2
    have hset : pySet st.signs ((st.crossingNumber.getD j 0 : Int) - 1)
        (if st.face + c₀.1 = 3 then 1 else -1) =
        some (st.signs.set (st.crossingNumber.getD j 0 - 1)
          (if st.face + c₀.1 = 3 then 1 else -1)) :=
      pySet_sub_one _ _ _ h1 h2
    have hstep : travStep size mosaic st = .ok (advance size
        { st with
          made := st.made.set j (st.made.getD j [] ++ [conn])
          satisfied := st.satisfied.set j true
          downCusps := if conn = (0,3) ∨ conn = (1,2) then st.downCusps + 1
            else st.downCusps
          upCusps := if conn = (3,0) ∨ conn = (2,1) then st.upCusps + 1
            else st.upCusps
          gauss := st.gauss ++
            [if st.face % 2 = 1 then ((st.crossingNumber.getD j 0 : Nat) : Int)
             else -((st.crossingNumber.getD j 0 : Nat) : Int)]
          signs := st.signs.set (st.crossingNumber.getD j 0 - 1)
            (if st.face + c₀.1 = 3 then 1 else -1)
          writhe := if st.face + c₀.1 = 3 then st.writhe + 1
            else st.writhe - 1 } conn) := by
      unfold travStep
      rw [hidx]
      dsimp only
      rw [ht9, hfind]
      dsimp only
      rw [hmade]
      have hsat' : ((st.satisfied.set j true).getD j false) = true :=
        getD_set_self _ _ _ _ (by omega)
      rw [if_pos (show (9 : Nat) = 9 from rfl)]
      rw [if_pos (show ((List.length [c₀] + 1 = 1 ∧ (9 : Nat) < 7) ∨
        List.length [c₀] + 1 = 2) from by norm_num)]
      rw [hsat']
      rw [if_pos (show (true = true) from rfl)]
      dsimp only [List.headD]
      rw [hset]
    refine ⟨_, hstep, by simp [advance], ?_, ?_⟩
    · intro hpos
      constructor
      · simp [advance, hpos]
      · simp [advance, hpos]
    · intro hneg
      constructor
      · simp [advance, hneg]
      · simp [advance, hneg]

/-- Witness for `crossing_tile_bookkeeping` on a one-tile type-9 mosaic:
a first visit with entry port 0 (even) and a second visit with entry port 2
(recorded ports 2 and 1 summing to 3, a positive crossing). -/
theorem crossing_tile_bookkeeping_witness :
    (∃ st', travStep 3 [9]
        { currTile := 0, face := 0, satisfied := [false], made := [[]],
          crossingNumber := [0], gauss := [], signs := [], crossingCount := 0,
          writhe := 0, upCusps := 0, downCusps := 0 } = .ok st' ∧
      st'.crossingCount = 1 ∧ st'.signs = [0] ∧
      st'.crossingNumber = [1] ∧ st'.gauss = [-1]) ∧
    (∃ st', travStep 3 [9]
        { currTile := 0, face := 2, satisfied := [false], made := [[(1, 3)]],
          crossingNumber := [1], gauss := [1], signs := [0],
          crossingCount := 1, writhe := 0, upCusps := 0, downCusps := 0 } =
        .ok st' ∧
      st'.gauss = [1, -1] ∧
      (2 + 1 = 3 → st'.writhe = 1 ∧ st'.signs = [1]) ∧
      (2 + 1 ≠ 3 → st'.writhe = -1 ∧ st'.signs = [-1])) :=
  ⟨(crossing_tile_bookkeeping 3 [9]
      { currTile := 0, face := 0, satisfied := [false], made := [[]],
        crossingNumber := [0], gauss := [], signs := [], crossingCount := 0,
        writhe := 0, upCusps := 0, downCusps := 0 } 0 (0, 2)
      (by decide) (by decide) (by decide) (by decide)).1 rfl rfl,
   (crossing_tile_bookkeeping 3 [9]
      { currTile := 0, face := 2, satisfied := [false], made := [[(1, 3)]],
        crossingNumber := [1], gauss := [1], signs := [0], crossingCount := 1,
        writhe := 0, upCusps := 0, downCusps := 0 } 0 (2, 0)
      (by decide) (by decide) (by decide) (by decide)).2 (1, 3) rfl
      (by decide) (by decide)⟩

/-! ### C10: the traversal's starting tile and initial entry port -/

theorem parse_keeps_start :
    ∀ (cs : List Char) (m : List Nat) (s : List Bool) (j i : Nat)
      (m' : List Nat) (s' : List Bool) (st' : Option Nat) (i' : Nat),
      parseChars m s (some j) i cs = .ok (m', s', st', i') →
      st' = some j ∧ ∀ k, k < i → m'.getD k 0 = m.getD k 0 := by
  intro cs
  induction cs with
  | nil =>
    intro m s j i m' s' st' i' h
    simp only [parseChars, Except.ok.injEq, Prod.mk.injEq] at h
    obtain ⟨rfl, rfl, rfl, rfl⟩ := h
    exact ⟨rfl, fun k _ => rfl⟩
  | cons c rest ih =>
    intro m s j i m' s' st' i' h
    simp only [parseChars] at h
    by_cases hd : c.isDigit = true
    · rw [if_pos hd] at h
      rcases hm : pySet m (i : Int) (c.toNat - 48) with _ | m₁ <;>
        rcases hs : pySet s (i : Int) ((c.toNat - 48) == 0) with _ | s₁ <;>
        rw [hm, hs] at h <;> dsimp only at h
      · exact absurd h (by simp)
      · exact absurd h (by simp)
      · exact absurd h (by simp)
      · rw [if_neg (show ¬((some j : Option Nat) = none ∧
          c.toNat - 48 ≠ 0) by simp)] at h
        obtain ⟨hm1, hm2⟩ := pySet_natCast_some _ _ _ _ hm
        obtain ⟨hst, hpres⟩ := ih m₁ s₁ j (i + 1) m' s' st' i' h
        subst hm2
        refine ⟨hst, fun k hk => ?_⟩
        rw [hpres k (by omega), getD_set_ne _ _ _ (by omega)]
    · rw [if_neg hd] at h
      exact absurd h (by simp)

theorem parse_start_found :
    ∀ (cs : List Char) (m : List Nat) (s : List Bool) (i : Nat)
      (m' : List Nat) (s' : List Bool) (st' : Option Nat) (i' : Nat),
      parseChars m s none i cs = .ok (m', s', st', i') →
      ∀ j, st' = some j →
        i ≤ j ∧ m'.getD j 0 ≠ 0 ∧
        (∀ k, i ≤ k → k < j → m'.getD k 0 = 0) ∧
        (∀ k, k < i → m'.getD k 0 = m.getD k 0) := by
  intro cs
  induction cs with
  | nil =>
    intro m s i m' s' st' i' h j hj
    simp only [parseChars, Except.ok.injEq, Prod.mk.injEq] at h
    obtain ⟨rfl, rfl, rfl, rfl⟩ := h
    exact absurd hj (by simp)
  | cons c rest ih =>
    intro m s i m' s' st' i' h j hj
    simp only [parseChars] at h
    by_cases hd : c.isDigit = true
    · rw [if_pos hd] at h
      rcases hm : pySet m (i : Int) (c.toNat - 48) with _ | m₁ <;>
        rcases hs : pySet s (i : Int) ((c.toNat - 48) == 0) with _ | s₁ <;>
        rw [hm, hs] at h <;> dsimp only at h
      · exact absurd h (by simp)
      · exact absurd h (by simp)
      · exact absurd h (by simp)
      · obtain ⟨hm1, hm2⟩ := pySet_natCast_some _ _ _ _ hm
        subst hm2
        by_cases hnum : c.toNat - 48 = 0
        · rw [if_neg (by simp [hnum])] at h
          obtain ⟨hle, hj0, hzero, hpres⟩ := ih _ _ _ _ _ _ _ h j hj
          refine ⟨by omega, hj0, ?_, ?_⟩
          · intro k hk1 hk2
            rcases Nat.eq_or_lt_of_le hk1 with rfl | hk1'
            · rw [hpres i (by omega), getD_set_self _ _ _ _ hm1, hnum]
            · exact hzero k (by omega) hk2
          · intro k hk
            rw [hpres k (by omega), getD_set_ne _ _ _ (by omega)]
        · rw [if_pos (by simp [hnum])] at h
          obtain ⟨hst, hpres⟩ := parse_keeps_start _ _ _ _ _ _ _ _ _ h
          rw [hst] at hj
          injection hj with hj'
          subst hj'
          refine ⟨Nat.le_refl _, ?_, fun k hk1 hk2 => by omega, ?_⟩
          · rw [hpres i (by omega), getD_set_self _ _ _ _ hm1]
            exact hnum
          · intro k hk
            rw [hpres k (by omega), getD_set_ne _ _ _ (by omega)]
    · rw [if_neg hd] at h
      exact absurd h (by simp)

/-- C10: for a diagram line containing a nonzero digit, the traversal
starts at the nonzero tile of lowest flattened index, and its initial entry
port is the entry port of the first connection listed in the fixed
port-connection table for that tile's type; consequently the whole
traversal is the pure function `travLoop` of the parsed line alone. -/
theorem traversal_start_characterization :
    ∀ (size fuel : Nat) (line : String) (m' : List Nat) (s' : List Bool)
      (j i' : Nat),
      parseChars (List.replicate (size * size) 0)
        (List.replicate (size * size) false) none 0 line.toList =
        .ok (m', s', some j, i') →
      (m'.getD j 0 ≠ 0 ∧ ∀ k, k < j → m'.getD k 0 = 0) ∧
      (∀ c0, (valid_connections.getD (m'.getD j 0) []).head? = some c0 →
        runDiagram size fuel line =
          travLoop size m' j fuel
            { currTile := (j : Int), face := c0.1, satisfied := s'
              made := List.replicate (size * size) []
              crossingNumber := List.replicate (size * size) 0
              gauss := [], signs := [], crossingCount := 0
              writhe := 0, upCusps := 0, downCusps := 0 }) := by
  intro size fuel line m' s' j i' hp
  obtain ⟨-, hj0, hzero, -⟩ := parse_start_found _ _ _ _ _ _ _ _ hp j rfl
  refine ⟨⟨hj0, fun k hk => hzero k (Nat.zero_le _) hk⟩, ?_⟩
  intro c0 hc0
  unfold runDiagram
  rw [hp]
  dsimp only
  rw [hc0]

/-- Witness for `traversal_start_characterization` at `110340000`: the
start tile is index 0 (type 1) and the initial entry port is 2, the entry
port of the first listed connection (2,3) of tile type 1. -/
theorem traversal_start_characterization_witness :
    (([1, 1, 0, 3, 4, 0, 0, 0, 0] : List Nat).getD 0 0 ≠ 0 ∧
      ∀ k, k < 0 → ([1, 1, 0, 3, 4, 0, 0, 0, 0] : List Nat).getD k 0 = 0) ∧
    runDiagram 3 40 "110340000" =
      travLoop 3 [1, 1, 0, 3, 4, 0, 0, 0, 0] 0 40
        { currTile := 0, face := 2
          satisfied := [false, false, true, false, false, true, true, true,
            true]
          made := List.replicate 9 []
          crossingNumber := List.replicate 9 0
          gauss := [], signs := [], crossingCount := 0
          writhe := 0, upCusps := 0, downCusps := 0 } :=
  ⟨(traversal_start_characterization 3 40 "110340000"
      [1, 1, 0, 3, 4, 0, 0, 0, 0]
      [false, false, true, false, false, true, true, true, true] 0 9 rfl).1,
   (traversal_start_characterization 3 40 "110340000"
      [1, 1, 0, 3, 4, 0, 0, 0, 0]
      [false, false, true, false, false, true, true, true, true] 0 9 rfl).2
      (2, 3) rfl⟩

/-! ### C4 (amended): traversal invariant machinery -/

theorem appearCount_append (g : List Int) (x : Int) (id : Nat) :
    appearCount (g ++ [x]) id =
      appearCount g id + (if x.natAbs = id then 1 else 0) := by
  simp only [appearCount, List.filter_append]
  split_ifs with h <;> simp [h]

theorem appearCount_zero (g : List Int) (c id : Nat)
    (hg : ∀ x ∈ g, x.natAbs ≤ c) (hlt : c < id) : appearCount g id = 0 := by
  simp only [appearCount, List.length_eq_zero, List.filter_eq_nil_iff]
  intro a ha
  simp only [decide_eq_true_eq]
  intro hab
  exact absurd (hg a ha) (by omega)

/-- A first visit to a type-9 tile (no recorded connection) preserves the
traversal invariant: it allocates identity `crossingCount + 1`, appends the
placeholder sign 0 and one Gauss entry carrying the new identity. -/
theorem inv_first_visit (mosaic : List Nat) (st : TravState) (j : Nat)
    (conn : Nat × Nat) (e : Int) (ct : Int) (f : Nat) (w : Int) (u d : Nat)
    (hinv : Inv mosaic st) (ht9 : mosaic.getD j 0 = 9)
    (hj : j < mosaic.length) (hmade : st.made.getD j [] = [])
    (he : e.natAbs = st.crossingCount + 1) :
    Inv mosaic
      { currTile := ct, face := f
        satisfied := st.satisfied
        made := st.made.set j (st.made.getD j [] ++ [conn])
        crossingNumber := st.crossingNumber.set j (st.crossingCount + 1)
        gauss := st.gauss ++ [e]
        signs := st.signs ++ [0]
        crossingCount := st.crossingCount + 1
        writhe := w, upCusps := u, downCusps := d } := by
  have hjm : j < st.made.length := by rw [hinv.madeLen]; exact hj
  have hjn : j < st.crossingNumber.length := by rw [hinv.numLen]; exact hj
  refine ⟨hinv.satLen, ?_, ?_, ?_, ?_, ?_, ?_, ?_, ?_, ?_, ?_, ?_⟩
  · simpa using hinv.madeLen
  · simpa using hinv.numLen
  · simp [hinv.signsLen]
  · intro k
    dsimp only
    rcases Nat.lt_trichotomy k st.signs.length with hk | hk | hk
    · rw [getD_append_lt _ _ _ _ hk]
      exact hinv.signsRange k
    · rw [hk, getD_append_last]
      exact Or.inr (Or.inl rfl)
    · rw [List.getD_eq_default _ _ (by simp; omega)]
      exact Or.inr (Or.inl rfl)
  · intro t h9 hne
    dsimp only at hne ⊢
    by_cases htj : t = j
    · subst htj
      rw [getD_set_self _ _ _ _ hjn]
      omega
    · rw [getD_set_ne _ _ _ htj] at hne
      rw [getD_set_ne _ _ _ htj]
      have := hinv.numRange t h9 hne
      omega
  · intro t t' h9 h9' hne hne' heq
    dsimp only at hne hne' heq
    by_cases htj : t = j <;> by_cases ht'j : t' = j
    · rw [htj, ht'j]
    · exfalso
      subst htj
      rw [getD_set_self _ _ _ _ hjn] at heq
      rw [getD_set_ne _ _ _ ht'j] at heq hne'
      have := hinv.numRange t' h9' hne'
      omega
    · exfalso
      subst ht'j
      rw [getD_set_self _ _ _ _ hjn] at heq
      rw [getD_set_ne _ _ _ htj] at heq hne
      have := hinv.numRange t h9 hne
      omega
    · rw [getD_set_ne _ _ _ htj] at heq hne
      rw [getD_set_ne _ _ _ ht'j] at heq hne'
      exact hinv.numInj t t' h9 h9' hne hne' heq
  · intro k hk
    dsimp only at hk ⊢
    rcases Nat.lt_or_ge k st.crossingCount with hk' | hk'
    · obtain ⟨t, h9, hne, hnum⟩ := hinv.surj k hk'
      have htj : t ≠ j := by
        intro hh
        rw [hh, hmade] at hne
        exact hne rfl
      refine ⟨t, h9, ?_, ?_⟩
      · rw [getD_set_ne _ _ _ htj]
        exact hne
      · rw [getD_set_ne _ _ _ htj]
        exact hnum
    · have hkc : k = st.crossingCount := by omega
      subst hkc
      refine ⟨j, ht9, ?_, ?_⟩
      · rw [getD_set_self _ _ _ _ hjm]
        simp
      · rw [getD_set_self _ _ _ _ hjn]
  · intro t h9 hne
    dsimp only at hne ⊢
    by_cases htj : t = j
    · subst htj
      rw [getD_set_self _ _ _ _ hjn, getD_set_self _ _ _ _ hjm]
      rw [appearCount_append,
        appearCount_zero st.gauss st.crossingCount _
          (fun x hx => (hinv.gaussRange x hx).2) (by omega)]
      rw [if_pos he, hmade]
      simp
    · rw [getD_set_ne _ _ _ htj] at hne
      rw [getD_set_ne _ _ _ htj, getD_set_ne _ _ _ htj]
      have hold := hinv.appear t h9 hne
      have hnb := (hinv.numRange t h9 hne).2
      rw [appearCount_append, if_neg (by omega)]
      simpa using hold
  · intro t h9 hne
    dsimp only at hne ⊢
    by_cases htj : t = j
    · subst htj
      rw [getD_set_self _ _ _ _ hjn, getD_set_self _ _ _ _ hjm]
      have hidx : st.crossingCount + 1 - 1 = st.signs.length := by
        have := hinv.signsLen
        omega
      rw [hidx, getD_append_last, hmade]
      simp
    · rw [getD_set_ne _ _ _ htj] at hne
      rw [getD_set_ne _ _ _ htj, getD_set_ne _ _ _ htj]
      have hnb := hinv.numRange t h9 hne
      rw [getD_append_lt _ _ _ _ (by rw [hinv.signsLen]; omega)]
      exact hinv.signZero t h9 hne
  · intro t h9
    dsimp only
    by_cases htj : t = j
    · subst htj
      rw [getD_set_self _ _ _ _ hjm]
      have hfalse : st.satisfied.getD t false = false := by
        have h2 := hinv.satIff t h9
        rw [hmade] at h2
        simp at h2
        simpa using h2
      rw [hfalse, hmade]
      simp
    · rw [getD_set_ne _ _ _ htj]
      exact hinv.satIff t h9
  · intro x hx
    dsimp only at hx ⊢
    rcases List.mem_append.mp hx with hx | hx
    · have := hinv.gaussRange x hx
      omega
    · have hxe : x = e := by simpa using hx
      rw [hxe, he]
      omega

/-- A later visit to an already-assigned type-9 tile preserves the
traversal invariant: one Gauss entry carrying the tile's identity is
appended and the identity's sign slot is overwritten with ±1.  The new
satisfied list is abstracted by the three properties the step guarantees. -/
theorem inv_assigned_visit (mosaic : List Nat) (st : TravState) (j : Nat)
    (conn c₀ : Nat × Nat) (tl : List (Nat × Nat)) (sat' : List Bool)
    (e : Int) (sgn : Int) (ct : Int) (f : Nat) (w : Int) (u d : Nat)
    (hinv : Inv mosaic st) (ht9 : mosaic.getD j 0 = 9)
    (hj : j < mosaic.length) (hmade : st.made.getD j [] = c₀ :: tl)
    (hsatlen : sat'.length = st.satisfied.length)
    (hsatj : sat'.getD j false = true)
    (hsatne : ∀ t, t ≠ j → sat'.getD t false = st.satisfied.getD t false)
    (he : e.natAbs = st.crossingNumber.getD j 0)
    (hsgn : sgn = 1 ∨ sgn = -1) :
    Inv mosaic
      { currTile := ct, face := f
        satisfied := sat'
        made := st.made.set j (st.made.getD j [] ++ [conn])
        crossingNumber := st.crossingNumber
        gauss := st.gauss ++ [e]
        signs := st.signs.set (st.crossingNumber.getD j 0 - 1) sgn
        crossingCount := st.crossingCount
        writhe := w, upCusps := u, downCusps := d } := by
  have hjm : j < st.made.length := by rw [hinv.madeLen]; exact hj
  have hmne : st.made.getD j [] ≠ [] := by rw [hmade]; simp
  have hnr := hinv.numRange j ht9 hmne
  have hidxlt : st.crossingNumber.getD j 0 - 1 < st.signs.length := by
    have := hinv.signsLen
    omega
  refine ⟨hsatlen.trans hinv.satLen, ?_, hinv.numLen, ?_, ?_, ?_, ?_, ?_,
    ?_, ?_, ?_, ?_⟩
  · simpa using hinv.madeLen
  · simp [hinv.signsLen]
  · intro k
    dsimp only
    by_cases hk : k = st.crossingNumber.getD j 0 - 1
    · rw [hk, getD_set_self _ _ _ _ hidxlt]
      rcases hsgn with rfl | rfl
      · exact Or.inr (Or.inr rfl)
      · exact Or.inl rfl
    · rw [getD_set_ne _ _ _ hk]
      exact hinv.signsRange k
  · intro t h9 hne
    dsimp only at hne ⊢
    by_cases htj : t = j
    · subst htj
      exact hnr
    · rw [getD_set_ne _ _ _ htj] at hne
      exact hinv.numRange t h9 hne
  · intro t t' h9 h9' hne hne' heq
    dsimp only at hne hne' heq
    have hneo : st.made.getD t [] ≠ [] := by
      by_cases htj : t = j
      · rw [htj, hmade]; simp
      · rw [getD_set_ne _ _ _ htj] at hne; exact hne
    have hneo' : st.made.getD t' [] ≠ [] := by
      by_cases htj : t' = j
      · rw [htj, hmade]; simp
      · rw [getD_set_ne _ _ _ htj] at hne'; exact hne'
    exact hinv.numInj t t' h9 h9' hneo hneo' heq
  · intro k hk
    dsimp only at hk ⊢
    obtain ⟨t, h9, hne, hnum⟩ := hinv.surj k hk
    refine ⟨t, h9, ?_, hnum⟩
    by_cases htj : t = j
    · rw [htj, getD_set_self _ _ _ _ hjm, hmade]
      simp
    · rw [getD_set_ne _ _ _ htj]
      exact hne
  · intro t h9 hne
    dsimp only at hne ⊢
    by_cases htj : t = j
    · subst htj
      rw [getD_set_self _ _ _ _ hjm]
      rw [appearCount_append, if_pos he, hinv.appear t h9 hmne, hmade]
      simp
    · rw [getD_set_ne _ _ _ htj] at hne
      rw [getD_set_ne _ _ _ htj]
      have hdiff : st.crossingNumber.getD t 0 ≠ st.crossingNumber.getD j 0 :=
        fun hh => htj (hinv.numInj t j h9 ht9 hne hmne hh)
      rw [appearCount_append, if_neg (by rw [he]; exact fun hh => hdiff hh.symm)]
      simpa using hinv.appear t h9 hne
  · intro t h9 hne
    dsimp only at hne ⊢
    by_cases htj : t = j
    · subst htj
      rw [getD_set_self _ _ _ _ hjm, getD_set_self _ _ _ _ hidxlt, hmade]
      rcases hsgn with rfl | rfl <;> simp
    · rw [getD_set_ne _ _ _ htj] at hne
      rw [getD_set_ne _ _ _ htj]
      have hnrt := hinv.numRange t h9 hne
      have hdiff : st.crossingNumber.getD t 0 ≠ st.crossingNumber.getD j 0 :=
        fun hh => htj (hinv.numInj t j h9 ht9 hne hmne hh)
      rw [getD_set_ne _ _ _ (by omega)]
      exact hinv.signZero t h9 hne
  · intro t h9
    dsimp only
    by_cases htj : t = j
    · subst htj
      rw [hsatj, getD_set_self _ _ _ _ hjm, hmade]
      simp
    · rw [hsatne t htj, getD_set_ne _ _ _ htj]
      exact hinv.satIff t h9
  · intro x hx
    dsimp only at hx ⊢
    rcases List.mem_append.mp hx with hx | hx
    · exact hinv.gaussRange x hx
    · have hxe : x = e := by simpa using hx
      rw [hxe, he]
      omega

/-- A step at a non-crossing tile preserves the traversal invariant: only
that tile's used-connection list (and possibly its satisfied flag) and the
cusp/writhe bookkeeping change. -/
theorem inv_non9 (mosaic : List Nat) (st : TravState) (j : Nat)
    (conn : Nat × Nat) (sat' : List Bool) (ct : Int) (f : Nat) (w : Int)
    (u d : Nat)
    (hinv : Inv mosaic st) (ht9 : mosaic.getD j 0 ≠ 9)
    (hsatlen : sat'.length = st.satisfied.length)
    (hsatne : ∀ t, t ≠ j → sat'.getD t false = st.satisfied.getD t false) :
    Inv mosaic
      { currTile := ct, face := f
        satisfied := sat'
        made := st.made.set j (st.made.getD j [] ++ [conn])
        crossingNumber := st.crossingNumber
        gauss := st.gauss
        signs := st.signs
        crossingCount := st.crossingCount
        writhe := w, upCusps := u, downCusps := d } := by
  refine ⟨hsatlen.trans hinv.satLen, ?_, hinv.numLen, hinv.signsLen,
    hinv.signsRange, ?_, ?_, ?_, ?_, ?_, ?_, hinv.gaussRange⟩
  · simpa using hinv.madeLen
  · intro t h9 hne
    dsimp only at hne ⊢
    have htj : t ≠ j := fun hh => ht9 (hh ▸ h9)
    rw [getD_set_ne _ _ _ htj] at hne
    exact hinv.numRange t h9 hne
  · intro t t' h9 h9' hne hne' heq
    dsimp only at hne hne' heq
    have htj : t ≠ j := fun hh => ht9 (hh ▸ h9)
    have ht'j : t' ≠ j := fun hh => ht9 (hh ▸ h9')
    rw [getD_set_ne _ _ _ htj] at hne
    rw [getD_set_ne _ _ _ ht'j] at hne'
    exact hinv.numInj t t' h9 h9' hne hne' heq
  · intro k hk
    dsimp only at hk ⊢
    obtain ⟨t, h9, hne, hnum⟩ := hinv.surj k hk
    have htj : t ≠ j := fun hh => ht9 (hh ▸ h9)
    refine ⟨t, h9, ?_, hnum⟩
    rw [getD_set_ne _ _ _ htj]
    exact hne
  · intro t h9 hne
    dsimp only at hne ⊢
    have htj : t ≠ j := fun hh => ht9 (hh ▸ h9)
    rw [getD_set_ne _ _ _ htj] at hne
    rw [getD_set_ne _ _ _ htj]
    exact hinv.appear t h9 hne
  · intro t h9 hne
    dsimp only at hne ⊢
    have htj : t ≠ j := fun hh => ht9 (hh ▸ h9)
    rw [getD_set_ne _ _ _ htj] at hne
    rw [getD_set_ne _ _ _ htj]
    exact hinv.signZero t h9 hne
  · intro t h9
    dsimp only
    have htj : t ≠ j := fun hh => ht9 (hh ▸ h9)
    rw [hsatne t htj, getD_set_ne _ _ _ htj]
    exact hinv.satIff t h9

/-- One loop-body step preserves the traversal invariant. -/
theorem inv_step (size : Nat) (mosaic : List Nat) (st st' : TravState)
    (hinv : Inv mosaic st) (h : travStep size mosaic st = .ok st') :
    Inv mosaic st' := by
  unfold travStep at h
  rcases hidx : pyIdx mosaic.length st.currTile with _ | j
  · rw [hidx] at h
    exact absurd h (by simp)
  · rw [hidx] at h
    dsimp only at h
    have hj : j < mosaic.length := pyIdx_lt hidx
    rcases hfind : (valid_connections.getD (mosaic.getD j 0) []).find?
        (fun c => c.1 = st.face) with _ | conn
    · rw [hfind] at h
      dsimp only at h
      injection h with h'
      subst h'
      exact hinv
    · rw [hfind] at h
      dsimp only at h
      by_cases ht9 : mosaic.getD j 0 = 9
      · rw [ht9] at h
        rw [if_pos (show (9 : Nat) = 9 from rfl)] at h
        rcases hmade : st.made.getD j [] with _ | ⟨c₀, tl⟩
        · -- first visit to the crossing
          rw [if_neg (show ¬(((st.made.getD j []).length + 1 = 1 ∧
              (9 : Nat) < 7) ∨ (st.made.getD j []).length + 1 = 2)
              from by rw [hmade]; norm_num)] at h
          have hsat : st.satisfied.getD j false = false := by
            have h2 := hinv.satIff j ht9
            rw [hmade] at h2
            simp at h2
            simpa using h2
          rw [hsat] at h
          rw [if_neg (show ¬(false = true) from by simp)] at h
          injection h with h'
          subst h'
          exact inv_first_visit mosaic st j conn _ _ _ _ _ _ hinv ht9 hj
            hmade (by split_ifs <;> omega)
        · -- the crossing is already assigned
          have hsattrue : (if ((st.made.getD j []).length + 1 = 1 ∧
              (9 : Nat) < 7) ∨ (st.made.getD j []).length + 1 = 2 then
              st.satisfied.set j true else st.satisfied).getD j false =
              true := by
            split_ifs with hC
            · exact getD_set_self _ _ _ _ (by rw [hinv.satLen]; exact hj)
            · apply (hinv.satIff j ht9).mpr
              rw [hmade] at hC ⊢
              simp only [List.length_cons] at hC ⊢
              omega
          rw [hsattrue] at h
          rw [if_pos (show (true = true) from rfl)] at h
          have hmne : st.made.getD j [] ≠ [] := by rw [hmade]; simp
          have hnr := hinv.numRange j ht9 hmne
          rcases hset : pySet st.signs
              ((st.crossingNumber.getD j 0 : Int) - 1)
              (if st.face + ((st.made.getD j []).headD conn).1 = 3 then 1
               else -1) with _ | signs'
          · rw [hset] at h
            exact absurd h (by simp)
          · have hval : signs' = st.signs.set
                (st.crossingNumber.getD j 0 - 1)
                (if st.face + ((st.made.getD j []).headD conn).1 = 3 then 1
                 else -1) := by
              have h2 := (pySet_sub_one st.signs
                (st.crossingNumber.getD j 0)
                (if st.face + ((st.made.getD j []).headD conn).1 = 3 then
                  (1 : Int) else -1) hnr.1
                (by have := hinv.signsLen; omega)).symm.trans hset
              injection h2 with h2'
              exact h2'.symm
            subst hval
            rw [hset] at h
            dsimp only at h
            injection h with h'
            subst h'
            have hsatlen2 : (if ((st.made.getD j []).length + 1 = 1 ∧
                (9 : Nat) < 7) ∨ (st.made.getD j []).length + 1 = 2 then
                st.satisfied.set j true else st.satisfied).length =
                st.satisfied.length := by
              split_ifs <;> simp
            have hsatne2 : ∀ t, t ≠ j → (if ((st.made.getD j []).length +
                1 = 1 ∧ (9 : Nat) < 7) ∨ (st.made.getD j []).length + 1 = 2
                then st.satisfied.set j true else st.satisfied).getD t false =
                st.satisfied.getD t false := by
              intro t htj
              split_ifs
              · exact getD_set_ne _ _ _ htj
              · rfl
            have he2 : (if st.face % 2 = 1 then
                ((st.crossingNumber.getD j 0 : Nat) : Int) else
                -((st.crossingNumber.getD j 0 : Nat) : Int)).natAbs =
                st.crossingNumber.getD j 0 := by
              split_ifs <;> omega
            have hsgn2 : (if st.face + ((st.made.getD j []).headD conn).1 =
                3 then (1 : Int) else -1) = 1 ∨
                (if st.face + ((st.made.getD j []).headD conn).1 = 3 then
                (1 : Int) else -1) = -1 := by
              split_ifs
              · exact Or.inl rfl
              · exact Or.inr rfl
            exact inv_assigned_visit mosaic st j conn c₀ tl _ _ _ _ _ _ _ _
              hinv ht9 hj hmade hsatlen2 hsattrue hsatne2 he2 hsgn2
      · rw [if_neg ht9] at h
        injection h with h'
        subst h'
        have hsatlen2 : (if ((st.made.getD j []).length + 1 = 1 ∧
            mosaic.getD j 0 < 7) ∨ (st.made.getD j []).length + 1 = 2 then
            st.satisfied.set j true else st.satisfied).length =
            st.satisfied.length := by
          split_ifs <;> simp
        have hsatne2 : ∀ t, t ≠ j → (if ((st.made.getD j []).length + 1 = 1
            ∧ mosaic.getD j 0 < 7) ∨ (st.made.getD j []).length + 1 = 2 then
            st.satisfied.set j true else st.satisfied).getD t false =
            st.satisfied.getD t false := by
          intro t htj
          split_ifs
          · exact getD_set_ne _ _ _ htj
          · rfl
        exact inv_non9 mosaic st j conn _ _ _ _ _ _ hinv ht9 hsatlen2 hsatne2

/-- The whole traversal loop preserves the invariant. -/
theorem inv_loop (size : Nat) (mosaic : List Nat) (start : Nat) :
    ∀ (fuel : Nat) (st st' : TravState), Inv mosaic st →
      travLoop size mosaic start fuel st = .ok (some st') →
      Inv mosaic st' := by
  intro fuel
  induction fuel with
  | zero =>
    intro st st' _ h
    simp [travLoop] at h
  | succ n ih =>
    intro st st' hinv h
    rw [travLoop] at h
    by_cases hc : st.currTile = (start : Int)
    · rw [if_pos hc] at h
      rcases hg : pyGet st.satisfied st.currTile with _ | sat
      · rw [hg] at h
        exact absurd h (by simp)
      · rw [hg] at h
        dsimp only at h
        rcases sat with _ | _
        · rw [if_neg (by simp)] at h
          rcases hstep : travStep size mosaic st with e | st₁
          · rw [hstep] at h
            exact absurd h (by simp)
          · rw [hstep] at h
            dsimp only at h
            exact ih st₁ st' (inv_step size mosaic st st₁ hinv hstep) h
        · rw [if_pos rfl] at h
          injection h with h'
          injection h' with h''
          subst h''
          exact hinv
    · rw [if_neg hc] at h
      rcases hstep : travStep size mosaic st with e | st₁
      · rw [hstep] at h
        exact absurd h (by simp)
      · rw [hstep] at h
        dsimp only at h
        exact ih st₁ st' (inv_step size mosaic st st₁ hinv hstep) h

/-- Parsing preserves the lengths of the tile and saturation arrays. -/
theorem parse_lengths :
    ∀ (cs : List Char) (m : List Nat) (s : List Bool) (start : Option Nat)
      (i : Nat) (m' : List Nat) (s' : List Bool) (st' : Option Nat)
      (i' : Nat),
      parseChars m s start i cs = .ok (m', s', st', i') →
      m'.length = m.length ∧ s'.length = s.length := by
  intro cs
  induction cs with
  | nil =>
    intro m s start i m' s' st' i' h
    simp only [parseChars, Except.ok.injEq, Prod.mk.injEq] at h
    obtain ⟨rfl, rfl, rfl, rfl⟩ := h
    exact ⟨rfl, rfl⟩
  | cons c rest ih =>
    intro m s start i m' s' st' i' h
    simp only [parseChars] at h
    by_cases hd : c.isDigit = true
    · rw [if_pos hd] at h
      rcases hm : pySet m (i : Int) (c.toNat - 48) with _ | m₁ <;>
        rcases hs : pySet s (i : Int) ((c.toNat - 48) == 0) with _ | s₁ <;>
        rw [hm, hs] at h <;> dsimp only at h
      · exact absurd h (by simp)
      · exact absurd h (by simp)
      · exact absurd h (by simp)
      · obtain ⟨hm1, hm2⟩ := pySet_natCast_some _ _ _ _ hm
        obtain ⟨hs1, hs2⟩ := pySet_natCast_some _ _ _ _ hs
        obtain ⟨hl1, hl2⟩ := ih _ _ _ _ _ _ _ _ h
        subst hm2
        subst hs2
        constructor
        · rw [hl1]
          simp
        · rw [hl2]
          simp
    · rw [if_neg hd] at h
      exact absurd h (by simp)

/-- Parsing marks every tile it writes as unsatisfied unless the digit is
zero; in particular every type-9 tile starts unsatisfied. -/
theorem parse_nine_unsat :
    ∀ (cs : List Char) (m : List Nat) (s : List Bool) (start : Option Nat)
      (i : Nat) (m' : List Nat) (s' : List Bool) (st' : Option Nat)
      (i' : Nat),
      m.length = s.length →
      (∀ t, m.getD t 0 = 9 → s.getD t false = false) →
      parseChars m s start i cs = .ok (m', s', st', i') →
      ∀ t, m'.getD t 0 = 9 → s'.getD t false = false := by
  intro cs
  induction cs with
  | nil =>
    intro m s start i m' s' st' i' hlen hnine h
    simp only [parseChars, Except.ok.injEq, Prod.mk.injEq] at h
    obtain ⟨rfl, rfl, rfl, rfl⟩ := h
    exact hnine
  | cons c rest ih =>
    intro m s start i m' s' st' i' hlen hnine h
    simp only [parseChars] at h
    by_cases hd : c.isDigit = true
    · rw [if_pos hd] at h
      rcases hm : pySet m (i : Int) (c.toNat - 48) with _ | m₁ <;>
        rcases hs : pySet s (i : Int) ((c.toNat - 48) == 0) with _ | s₁ <;>
        rw [hm, hs] at h <;> dsimp only at h
      · exact absurd h (by simp)
      · exact absurd h (by simp)
      · exact absurd h (by simp)
      · obtain ⟨hm1, hm2⟩ := pySet_natCast_some _ _ _ _ hm
        obtain ⟨hs1, hs2⟩ := pySet_natCast_some _ _ _ _ hs
        subst hm2
        subst hs2
        refine ih _ _ _ _ _ _ _ _ (by simp [hlen]) ?_ h
        intro t ht
        by_cases hti : t = i
        · subst hti
          rw [getD_set_self _ _ _ _ hm1] at ht
          rw [getD_set_self _ _ _ _ (by rw [← hlen]; exact hm1)]
          rw [ht]
          rfl
        · rw [getD_set_ne _ _ _ hti] at ht
          rw [getD_set_ne _ _ _ hti]
          exact hnine t ht
    · rw [if_neg hd] at h
      exact absurd h (by simp)

/-- The traversal state built for a freshly parsed diagram satisfies the
invariant. -/
theorem inv_init (size : Nat) (m' : List Nat) (s' : List Bool)
    (ct : Int) (f : Nat)
    (hmlen : m'.length = size * size) (hslen : s'.length = size * size)
    (hnine : ∀ t, m'.getD t 0 = 9 → s'.getD t false = false) :
    Inv m'
      { currTile := ct, face := f, satisfied := s'
        made := List.replicate (size * size) []
        crossingNumber := List.replicate (size * size) 0
        gauss := [], signs := [], crossingCount := 0
        writhe := 0, upCusps := 0, downCusps := 0 } := by
  have hrep : ∀ t, (List.replicate (size * size)
      ([] : List (Nat × Nat))).getD t [] = [] := fun t => getD_replicate _ _ _
  refine ⟨?_, ?_, ?_, rfl, ?_, ?_, ?_, ?_, ?_, ?_, ?_, ?_⟩
  · rw [hslen, hmlen]
  · simp [hmlen]
  · simp [hmlen]
  · intro k
    dsimp only
    exact Or.inr (Or.inl (List.getD_eq_default _ _ (by simp)))
  · intro t h9 hne
    exact absurd (hrep t) hne
  · intro t t' h9 h9' hne hne' heq
    exact absurd (hrep t) hne
  · intro k hk
    dsimp only at hk
    exact absurd hk (by omega)
  · intro t h9 hne
    exact absurd (hrep t) hne
  · intro t h9 hne
    exact absurd (hrep t) hne
  · intro t h9
    dsimp only
    rw [hnine t h9, hrep t]
    simp
  · intro x hx
    exact absurd hx (by simp)

/-- C4 (amended): for every diagram from a fresh batch state whose
traversal completes with every tile satisfied, every allocated crossing
identity (1-based, up to the final crossing counter) appears at least twice
in the Gauss code and its sign-table entry is resolved to exactly +1 or -1
— never left at the placeholder 0.  (As stated originally the claim fails:
the identity can appear more than twice, and the two appearances need not
have opposite entry-port parity.) -/
theorem allocated_crossings_resolved :
    ∀ (size fuel : Nat) (line : String),
      isKnotOf (runDiagram size fuel line) = true →
      ∀ k, k < countOf (runDiagram size fuel line) →
        ((signsOf (runDiagram size fuel line)).getD k 0 = 1 ∨
          (signsOf (runDiagram size fuel line)).getD k 0 = -1) ∧
        2 ≤ appearCount (gaussOf (runDiagram size fuel line)) (k + 1) := by
  intro size fuel line hknot k hk
  rcases hres : runDiagram size fuel line with e | v
  · rw [hres] at hknot
    simp [isKnotOf] at hknot
  · rcases v with _ | st
    · rw [hres] at hknot
      simp [isKnotOf] at hknot
    · rw [hres] at hknot hk
      simp only [isKnotOf] at hknot
      simp only [countOf] at hk
      simp only [signsOf, gaussOf]
      unfold runDiagram at hres
      rcases hp : parseChars (List.replicate (size * size) 0)
          (List.replicate (size * size) false) none 0 line.toList
          with e₀ | ⟨m', s', startOpt, i'⟩
      · rw [hp] at hres
        exact absurd hres (by simp)
      · rw [hp] at hres
        dsimp only at hres
        rcases startOpt with _ | start
        · dsimp only at hres
          exact absurd hres (by simp)
        · dsimp only at hres
          rcases hc0 : (valid_connections.getD (m'.getD start 0) []).head?
              with _ | c0
          · rw [hc0] at hres
            exact absurd hres (by simp)
          · rw [hc0] at hres
            dsimp only at hres
            obtain ⟨hml, hsl⟩ := parse_lengths _ _ _ _ _ _ _ _ _ hp
            have hml' : m'.length = size * size := by simpa using hml
            have hsl' : s'.length = size * size := by simpa using hsl
            have hnine := parse_nine_unsat _ _ _ _ _ _ _ _ _
              (by simp)
              (fun t ht => by
                rw [getD_replicate] at ht
                exact absurd ht (by norm_num))
              hp
            have hinv0 := inv_init size m' s' (start : Int) c0.1 hml' hsl'
              hnine
            have hinvF := inv_loop size m' start fuel _ st hinv0 hres
            obtain ⟨t, h9, hne, hnum⟩ := hinvF.surj k hk
            have htlt : t < m'.length :=
              lt_length_of_getD_ne _ _ _ (by rw [h9]; norm_num)
            have hsatt : st.satisfied.getD t false = true :=
              all_getD_of_all _ hknot t (by rw [hinvF.satLen]; exact htlt)
            have hlen2 : 2 ≤ (st.made.getD t []).length :=
              (hinvF.satIff t h9).mp hsatt
            constructor
            · have hz := hinvF.signZero t h9 hne
              rw [hnum] at hz
              have hk1 : k + 1 - 1 = k := by omega
              rw [hk1] at hz
              have hz' : st.signs.getD k 0 ≠ 0 := by
                intro h0
                have := hz.mp h0
                omega
              rcases hinvF.signsRange k with h | h | h
              · exact Or.inr h
              · exact absurd h hz'
              · exact Or.inl h
            · have ha := hinvF.appear t h9 hne
              rw [hnum] at ha
              omega

/-- Witness for `allocated_crossings_resolved` at the one-crossing diagram
`081294340`: the single allocated identity has sign +1 and appears (four
times, so certainly) at least twice. -/
theorem allocated_crossings_resolved_witness :
    isKnotOf (runDiagram 3 60 "081294340") = true ∧
    0 < countOf (runDiagram 3 60 "081294340") ∧
    ((signsOf (runDiagram 3 60 "081294340")).getD 0 0 = 1 ∨
      (signsOf (runDiagram 3 60 "081294340")).getD 0 0 = -1) ∧
    2 ≤ appearCount (gaussOf (runDiagram 3 60 "081294340")) (0 + 1) :=
  ⟨by decide, by decide,
   (allocated_crossings_resolved 3 60 "081294340" (by decide) 0
     (by decide)).1,
   (allocated_crossings_resolved 3 60 "081294340" (by decide) 0
     (by decide)).2⟩

end LegendrianMosaic
